import Mathlib

/-!
Verification of the text-similarity matching engine of the Clearq.in
repository (`get_ai_recommendations` in `app.py`).

The engine, as written in the source:
* fetches the users with `role = 'mentor'` and `is_verified = True`;
* builds one candidate document per mentor with the f-string
  `f"{m.domain} {m.company} {m.services} {m.bio} {m.skills}"`
  (a null column is interpolated by Python as the text `"None"`);
* appends the query to the corpus, runs scikit-learn's
  `TfidfVectorizer(stop_words='english')` followed by
  `linear_kernel(tfidf_matrix[-1], tfidf_matrix[:-1])`;
* enumerates the scores, sorts them descending by score (Python's `sorted`
  is stable), keeps the first 3, keeps those with score `> 0.1`, and
  returns the corresponding mentor objects;
* the whole body is wrapped in `try/except` returning `[]` on any failure
  (scikit-learn raises `ValueError` when the fitted vocabulary is empty).

The embedding below follows the scikit-learn defaults that the call uses:
`lowercase=True`, token pattern `\w\w+` (maximal runs of at least two word
characters), the built-in English stop-word list, `smooth_idf=True`
(`idf t = ln ((1+n)/(1+df t)) + 1`), raw term counts, and l2 row
normalisation.  Scores are modelled over `ℝ`; Python floats are modelled
as exact reals.
-/

/-- A row of the `User` table, restricted to the columns that the matching
engine reads (plus `username`/`price`, carried along to witness that the
function returns whole records).  Nullable text columns are `Option String`. -/
structure Mentor where
  id : ℕ
  username : String
  role : String
  domain : Option String
  company : Option String
  services : Option String
  bio : Option String
  skills : Option String
  price : ℤ
  is_verified : Bool
deriving DecidableEq, Repr, Inhabited

/-- Python's f-string interpolation of a nullable column: `None` prints as
the five-character text `"None"`, not as the empty string. -/
def pyStr : Option String → String
  | some s => s
  | none => "None"

/-- The builder of one candidate document,
`content = f"{m.domain} {m.company} {m.services} {m.bio} {m.skills}"`. -/
def content (m : Mentor) : String :=
  pyStr m.domain ++ " " ++ pyStr m.company ++ " " ++ pyStr m.services ++ " "
    ++ pyStr m.bio ++ " " ++ pyStr m.skills

/-- The eligibility query `User.query.filter_by(role='mentor', is_verified=True).all()`, applied to
an explicit pool standing for the user table, preserving table order. -/
def eligibleMentors (pool : List Mentor) : List Mentor :=
  pool.filter (fun m => m.role == "mentor" && m.is_verified)

/-- The `mentor_data` list of dicts `{'id': m.id, 'content': content, 'obj': m}`. -/
def mentor_data (pool : List Mentor) : List (ℕ × String × Mentor) :=
  (eligibleMentors pool).map (fun m => (m.id, content m, m))

/-- The document collection handed to `fit_transform`: every candidate
document followed by the user goal (`corpus.append(user_goal)`). -/
def corpusOf (pool : List Mentor) (goal : String) : List String :=
  (eligibleMentors pool).map content ++ [goal]

/-- A character matched by `\w` in the token pattern `(?u)\b\w\w+\b`
(restricted to ASCII: letters, digits, underscore). -/
def isTokenChar (c : Char) : Bool := c.isAlphanum || c == '_'

/-- Scanner for the token pattern `\w\w+`: maximal runs of word characters,
keeping only runs of length at least two.  `cur` holds the current run in
reverse. -/
def tokenizeAux : List Char → List Char → List String
  | [], cur => if 2 ≤ cur.length then [String.mk cur.reverse] else []
  | c :: cs, cur =>
    if isTokenChar c then
      tokenizeAux cs (c :: cur)
    else if 2 ≤ cur.length then
      String.mk cur.reverse :: tokenizeAux cs []
    else
      tokenizeAux cs []

/-- scikit-learn's analyzer up to stop-word removal: lowercase, then extract
tokens of at least two word characters. -/
def tokenize (s : String) : List String := tokenizeAux (s.data.map Char.toLower) []

/-- scikit-learn's frozen built-in English stop-word list
(`sklearn.feature_extraction.text.ENGLISH_STOP_WORDS`). -/
def stopWords : List String :=
  ["a", "about", "above", "across", "after", "afterwards", "again", "against",
   "all", "almost", "alone", "along", "already", "also", "although", "always",
   "am", "among", "amongst", "amoungst", "amount", "an", "and", "another",
   "any", "anyhow", "anyone", "anything", "anyway", "anywhere", "are",
   "around", "as", "at", "back", "be", "became", "because", "become",
   "becomes", "becoming", "been", "before", "beforehand", "behind", "being",
   "below", "beside", "besides", "between", "beyond", "bill", "both",
   "bottom", "but", "by", "call", "can", "cannot", "cant", "co", "con",
   "could", "couldnt", "cry", "de", "describe", "detail", "do", "done",
   "down", "due", "during", "each", "eg", "eight", "either", "eleven",
   "else", "elsewhere", "empty", "enough", "etc", "even", "ever", "every",
   "everyone", "everything", "everywhere", "except", "few", "fifteen",
   "fifty", "fill", "find", "fire", "first", "five", "for", "former",
   "formerly", "forty", "found", "four", "from", "front", "full", "further",
   "get", "give", "go", "had", "has", "hasnt", "have", "he", "hence", "her",
   "here", "hereafter", "hereby", "herein", "hereupon", "hers", "herself",
   "him", "himself", "his", "how", "however", "hundred", "i", "ie", "if",
   "in", "inc", "indeed", "interest", "into", "is", "it", "its", "itself",
   "keep", "last", "latter", "latterly", "least", "less", "ltd", "made",
   "many", "may", "me", "meanwhile", "might", "mill", "mine", "more",
   "moreover", "most", "mostly", "move", "much", "must", "my", "myself",
   "name", "namely", "neither", "never", "nevertheless", "next", "nine",
   "no", "nobody", "none", "noone", "nor", "not", "nothing", "now",
   "nowhere", "of", "off", "often", "on", "once", "one", "only", "onto",
   "or", "other", "others", "otherwise", "our", "ours", "ourselves", "out",
   "over", "own", "part", "per", "perhaps", "please", "put", "rather", "re",
   "same", "see", "seem", "seemed", "seeming", "seems", "serious", "several",
   "she", "should", "show", "side", "since", "sincere", "six", "sixty",
   "so", "some", "somehow", "someone", "something", "sometime", "sometimes",
   "somewhere", "still", "such", "system", "take", "ten", "than", "that",
   "the", "their", "them", "themselves", "then", "thence", "there",
   "thereafter", "thereby", "therefore", "therein", "thereupon", "these",
   "they", "thick", "thin", "third", "this", "those", "though", "three",
   "through", "throughout", "thru", "thus", "to", "together", "too", "top",
   "toward", "towards", "twelve", "twenty", "two", "un", "under", "until",
   "up", "upon", "us", "very", "via", "was", "we", "well", "were", "what",
   "whatever", "when", "whence", "whenever", "where", "whereafter",
   "whereas", "whereby", "wherein", "whereupon", "wherever", "whether",
   "which", "while", "whither", "who", "whoever", "whole", "whom", "whose",
   "why", "will", "with", "within", "without", "would", "yet", "you",
   "your", "yours", "yourself", "yourselves"]

/-- The analyzer output for one document: tokens with stop words removed. -/
def filteredTokens (s : String) : List String :=
  (tokenize s).filter (fun t => !stopWords.contains t)

/-- The fitted vocabulary: every term occurring in some document of the
collection after stop-word removal. -/
def vocabulary (corpus : List String) : Finset String :=
  ((corpus.map filteredTokens).flatten).toFinset

/-- Raw term count of `t` in document `d` (`CountVectorizer` counts). -/
def tokenCount (d t : String) : ℕ := (filteredTokens d).count t

/-- Document frequency of term `t` in the collection. -/
def docFreq (corpus : List String) (t : String) : ℕ :=
  (corpus.filter (fun d => (filteredTokens d).contains t)).length


/-- Smoothed inverse document frequency, scikit-learn's `smooth_idf=True`
formula: `idf t = ln ((1 + n) / (1 + df t)) + 1` with `n` the number of
documents in the fitted collection. -/
noncomputable def idf (corpus : List String) (t : String) : ℝ :=
  Real.log ((1 + (corpus.length : ℝ)) / (1 + (docFreq corpus t : ℝ))) + 1

/-- Unnormalised tf-idf entry: raw count times idf. -/
noncomputable def tfidfRaw (corpus : List String) (d t : String) : ℝ :=
  (tokenCount d t : ℝ) * idf corpus t

/-- Euclidean norm of a document's unnormalised tf-idf row. -/
noncomputable def rowNorm (corpus : List String) (d : String) : ℝ :=
  Real.sqrt (∑ t ∈ vocabulary corpus, (tfidfRaw corpus d t) ^ 2)

/-- l2-normalised tf-idf weight (`norm='l2'`).  When the row is all zero its
norm is zero and division by zero yields 0 in `ℝ`, exactly matching
scikit-learn's convention of leaving all-zero rows unchanged. -/
noncomputable def tfidfWeight (corpus : List String) (d t : String) : ℝ :=
  tfidfRaw corpus d t / rowNorm corpus d

/-- The `linear_kernel` of two l2-normalised tf-idf rows: their dot product. -/
noncomputable def linearKernel (corpus : List String) (d e : String) : ℝ :=
  ∑ t ∈ vocabulary corpus, tfidfWeight corpus d t * tfidfWeight corpus e t

/-- The score vector `cosine_sim[0]`: the similarity of the query row (`tfidf_matrix[-1]`)
against every mentor document row (`tfidf_matrix[:-1]`), one score per
mentor, in corpus order. -/
noncomputable def simScores (pool : List Mentor) (goal : String) : List ℝ :=
  ((corpusOf pool goal).dropLast).map
    (fun d => linearKernel (corpusOf pool goal) goal d)

/-- The indexed scores, `scores = list(enumerate(cosine_sim[0]))`. -/
noncomputable def scoresEnum (pool : List Mentor) (goal : String) : List (ℕ × ℝ) :=
  (simScores pool goal).enum

/-- Insert an indexed score into a descending list, placing it before the
first entry whose score does not strictly exceed it. -/
noncomputable def insertDesc (x : ℕ × ℝ) : List (ℕ × ℝ) → List (ℕ × ℝ)
  | [] => [x]
  | y :: ys => if y.2 ≤ x.2 then x :: y :: ys else y :: insertDesc x ys

/-- The sort `sorted(scores, key=lambda x: x[1], reverse=True)`: a stable descending
sort by score.  Python's `sorted` is stable (also under `reverse=True`), so
any stable descending insertion sort computes the same list. -/
noncomputable def sortDesc : List (ℕ × ℝ) → List (ℕ × ℝ)
  | [] => []
  | x :: xs => insertDesc x (sortDesc xs)

/-- The score-sorted list of `(mentor index, score)` pairs. -/
noncomputable def rankedScores (pool : List Mentor) (goal : String) : List (ℕ × ℝ) :=
  sortDesc (scoresEnum pool goal)

/-- The loop `for i, score in scores[:3]: if score > 0.1: ...` — keep the first 3
entries of the sorted list, then keep those scoring strictly above 0.1. -/
noncomputable def survivors (pool : List Mentor) (goal : String) : List (ℕ × ℝ) :=
  ((rankedScores pool goal).take 3).filter (fun p => (1 : ℝ)/10 < p.2)

/-- The `try:` block of `get_ai_recommendations`, as a fallible computation.
The only raising step is `tfidf.fit_transform`, which raises `ValueError`
when the fitted vocabulary is empty (every document reduced to nothing after
tokenisation and stop-word removal); the test is hoisted to the front, which
is observationally equivalent.  The dead `if not mentor_data` guard of the
source is kept. -/
noncomputable def rankBody (pool : List Mentor) (goal : String) :
    Except String (List Mentor) :=
  if eligibleMentors pool = [] then .ok []
  else if mentor_data pool = [] then .ok []
  else if vocabulary (corpusOf pool goal) = ∅ then
    .error ("empty vocabulary; perhaps the documents only contain stop words")
  else
    .ok ((survivors pool goal).map
      (fun p => (eligibleMentors pool).getD p.1 default))

/-- The function `get_ai_recommendations(user_goal)`: the `try/except` wrapper mapping any
failure of the body to the empty recommendation list. -/
noncomputable def get_ai_recommendations (pool : List Mentor) (goal : String) :
    List Mentor :=
  match rankBody pool goal with
  | .ok r => r
  | .error _ => []

/-- Whether control reaches `tfidf.fit_transform(corpus)`: the source
returns early (before any vectorisation) exactly when the eligible-mentor
list is empty (the `if not mentor_data` guard can never fire afterwards,
since `mentor_data` has one entry per eligible mentor). -/
def vectorizerInvoked (pool : List Mentor) : Bool :=
  !(eligibleMentors pool).isEmpty

/-- The `(index, score)` pairs whose mentors are returned: empty on the
early-return and error paths, the thresholded top 3 otherwise. -/
noncomputable def selectedPairs (pool : List Mentor) (goal : String) :
    List (ℕ × ℝ) :=
  if eligibleMentors pool = [] then []
  else if vocabulary (corpusOf pool goal) = ∅ then []
  else survivors pool goal

/-- The candidate document as §4.1 of the specification words it (for
comparison with `content`, which is what the source computes): the five
fields joined with single spaces, "treating a missing/null field as an
empty string". -/
def specDocument (m : Mentor) : String :=
  m.domain.getD ("") ++ " " ++ m.company.getD ("") ++ " " ++ m.services.getD ("")
    ++ " " ++ m.bio.getD ("") ++ " " ++ m.skills.getD ("")

/-- A verified mentor with every profile field populated. -/
def mentorA : Mentor :=
  ⟨1, "ana", "mentor", some ("python"), some ("flask"), some ("coaching"),
   some ("backend"), some ("apis"), 1500, true⟩

/-- Identical to `mentorA` except for the `price` column (which the
document builder does not read). -/
def mentorB : Mentor :=
  ⟨1, "ana", "mentor", some ("python"), some ("flask"), some ("coaching"),
   some ("backend"), some ("apis"), 999, true⟩

/-- A verified mentor whose five document fields are all null. -/
def mentorNull : Mentor :=
  ⟨2, "nil", "mentor", none, none, none, none, none, 0, true⟩

/-- A non-mentor user: not eligible for matching. -/
def learnerC : Mentor :=
  ⟨3, "lea", "learner", some ("python"), none, none, none, none, 0, false⟩

/-- A verified mentor with a null `domain` and the other fields set. -/
def mentorHalfNull : Mentor :=
  ⟨4, "hal", "mentor", none, some ("Google"), some ("resume review"),
   some ("I mentor devs"), some ("python"), 0, true⟩

/-- The query equal to `mentorA`'s candidate document. -/
def goalA : String := "python flask coaching backend apis"

/-! ### Properties of the stable descending sort -/

theorem mem_insertDesc {x z : ℕ × ℝ} {l : List (ℕ × ℝ)} :
    z ∈ insertDesc x l ↔ z = x ∨ z ∈ l := by
  induction l with
  | nil => simp [insertDesc]
  | cons y ys ih =>
    by_cases h : y.2 ≤ x.2
    · rw [insertDesc, if_pos h]
      exact List.mem_cons
    · rw [insertDesc, if_neg h]
      simp only [List.mem_cons, ih]
      tauto

theorem insertDesc_perm (x : ℕ × ℝ) (l : List (ℕ × ℝ)) :
    List.Perm (insertDesc x l) (x :: l) := by
  induction l with
  | nil => simp [insertDesc]
  | cons y ys ih =>
    by_cases h : y.2 ≤ x.2
    · rw [insertDesc, if_pos h]
    · rw [insertDesc, if_neg h]
      exact (ih.cons y).trans (List.Perm.swap x y ys)

theorem sortDesc_perm (l : List (ℕ × ℝ)) : List.Perm (sortDesc l) l := by
  induction l with
  | nil => simp [sortDesc]
  | cons x xs ih =>
    exact (insertDesc_perm x (sortDesc xs)).trans (ih.cons x)

theorem insertDesc_sorted {x : ℕ × ℝ} {l : List (ℕ × ℝ)}
    (hl : l.Pairwise (fun a b => b.2 ≤ a.2)) :
    (insertDesc x l).Pairwise (fun a b => b.2 ≤ a.2) := by
  induction l with
  | nil => simp [insertDesc]
  | cons y ys ih =>
    rcases List.pairwise_cons.1 hl with ⟨hy, hys⟩
    by_cases h : y.2 ≤ x.2
    · rw [insertDesc, if_pos h]
      refine List.pairwise_cons.2 ⟨?_, hl⟩
      intro z hz
      rcases List.mem_cons.1 hz with rfl | hz
      · exact h
      · exact (hy z hz).trans h
    · rw [insertDesc, if_neg h]
      refine List.pairwise_cons.2 ⟨?_, ih hys⟩
      intro z hz
      rcases mem_insertDesc.1 hz with rfl | hz
      · exact le_of_lt (lt_of_not_le h)
      · exact hy z hz

theorem sortDesc_sorted (l : List (ℕ × ℝ)) :
    (sortDesc l).Pairwise (fun a b => b.2 ≤ a.2) := by
  induction l with
  | nil => simp [sortDesc]
  | cons x xs ih => exact insertDesc_sorted ih

theorem insertDesc_stable {x : ℕ × ℝ} {l : List (ℕ × ℝ)}
    (hstab : l.Pairwise (fun a b => a.2 = b.2 → a.1 < b.1))
    (hidx : ∀ y ∈ l, x.1 < y.1) :
    (insertDesc x l).Pairwise (fun a b => a.2 = b.2 → a.1 < b.1) := by
  induction l with
  | nil => simp [insertDesc]
  | cons y ys ih =>
    rcases List.pairwise_cons.1 hstab with ⟨sy, sys⟩
    by_cases h : y.2 ≤ x.2
    · rw [insertDesc, if_pos h]
      refine List.pairwise_cons.2 ⟨?_, hstab⟩
      intro z hz _heq
      exact hidx z hz
    · rw [insertDesc, if_neg h]
      refine List.pairwise_cons.2
        ⟨?_, ih sys (fun z hz => hidx z (List.mem_cons_of_mem y hz))⟩
      intro z hz heq
      rcases mem_insertDesc.1 hz with rfl | hz
      · exact absurd (le_of_eq heq) h
      · exact sy z hz heq

theorem sortDesc_stable {l : List (ℕ × ℝ)}
    (h : l.Pairwise (fun a b => a.1 < b.1)) :
    (sortDesc l).Pairwise (fun a b => a.2 = b.2 → a.1 < b.1) := by
  induction l with
  | nil => simp [sortDesc]
  | cons x xs ih =>
    rcases List.pairwise_cons.1 h with ⟨hx, hxs⟩
    refine insertDesc_stable (ih hxs) ?_
    intro y hy
    exact hx y ((sortDesc_perm xs).subset hy)

theorem enum_pairwise_fst_lt {α : Type} (l : List α) :
    l.enum.Pairwise (fun a b => a.1 < b.1) := by
  rw [List.pairwise_iff_getElem]
  intro i j hi hj hij
  simp only [List.getElem_enum]
  exact hij

theorem mem_enum_spec {α : Type} {l : List α} {p : ℕ × α}
    (hp : p ∈ l.enum) :
    p.1 < l.length ∧ p.2 ∈ l ∧ ∀ d, p.2 = l.getD p.1 d := by
  have h := List.mem_enum_iff_getElem?.1 hp
  have hlt : p.1 < l.length := by
    by_contra hge
    rw [List.getElem?_eq_none (le_of_not_lt hge)] at h
    exact Option.noConfusion h
  have hval : l[p.1] = p.2 := by
    rw [List.getElem?_eq_getElem hlt] at h
    exact Option.some.inj h
  refine ⟨hlt, ?_, ?_⟩
  · rw [← hval]
    exact List.getElem_mem hlt
  · intro d
    rw [List.getD_eq_getElem?_getD, h]
    rfl

/-! ### Numeric facts about the tf-idf weights -/

theorem docFreq_le_length (corpus : List String) (t : String) :
    docFreq corpus t ≤ corpus.length := List.length_filter_le _ _

theorem one_le_idf (corpus : List String) (t : String) : 1 ≤ idf corpus t := by
  have hpos : (0 : ℝ) < 1 + (docFreq corpus t : ℝ) := by positivity
  have hle : (1 : ℝ) + (docFreq corpus t : ℝ) ≤ 1 + (corpus.length : ℝ) :=
    add_le_add_left (Nat.cast_le.2 (docFreq_le_length corpus t)) 1
  have h1 : (1 : ℝ) ≤ (1 + (corpus.length : ℝ)) / (1 + (docFreq corpus t : ℝ)) :=
    (one_le_div hpos).2 hle
  have h2 := Real.log_nonneg h1
  unfold idf
  linarith

theorem tfidfRaw_nonneg (corpus : List String) (d t : String) :
    0 ≤ tfidfRaw corpus d t :=
  mul_nonneg (Nat.cast_nonneg _) (le_trans zero_le_one (one_le_idf corpus t))

theorem rowNorm_nonneg (corpus : List String) (d : String) :
    0 ≤ rowNorm corpus d := Real.sqrt_nonneg _

theorem tfidfWeight_nonneg (corpus : List String) (d t : String) :
    0 ≤ tfidfWeight corpus d t :=
  div_nonneg (tfidfRaw_nonneg corpus d t) (rowNorm_nonneg corpus d)

theorem sum_weight_sq_eq_one {corpus : List String} {d : String}
    (h : rowNorm corpus d ≠ 0) :
    ∑ t ∈ vocabulary corpus, (tfidfWeight corpus d t) ^ 2 = 1 := by
  have hS : (0 : ℝ) ≤ ∑ t ∈ vocabulary corpus, (tfidfRaw corpus d t) ^ 2 :=
    Finset.sum_nonneg (fun t _ => sq_nonneg _)
  have hN2 : (rowNorm corpus d) ^ 2
      = ∑ t ∈ vocabulary corpus, (tfidfRaw corpus d t) ^ 2 := Real.sq_sqrt hS
  have hSne : (∑ t ∈ vocabulary corpus, (tfidfRaw corpus d t) ^ 2) ≠ 0 := by
    intro h0
    apply h
    unfold rowNorm
    rw [h0, Real.sqrt_zero]
  calc ∑ t ∈ vocabulary corpus, (tfidfWeight corpus d t) ^ 2
      = ∑ t ∈ vocabulary corpus, (tfidfRaw corpus d t) ^ 2 / (rowNorm corpus d) ^ 2 := by
        apply Finset.sum_congr rfl
        intro t _
        unfold tfidfWeight
        rw [div_pow]
    _ = (∑ t ∈ vocabulary corpus, (tfidfRaw corpus d t) ^ 2) / (rowNorm corpus d) ^ 2 :=
        (Finset.sum_div _ _ _).symm
    _ = 1 := by
        rw [hN2]
        exact div_self hSne

theorem sum_weight_sq_le_one (corpus : List String) (d : String) :
    ∑ t ∈ vocabulary corpus, (tfidfWeight corpus d t) ^ 2 ≤ 1 := by
  by_cases h : rowNorm corpus d = 0
  · have hz : ∀ t ∈ vocabulary corpus, (tfidfWeight corpus d t) ^ 2 = 0 := by
      intro t _
      unfold tfidfWeight
      rw [h, div_zero]
      norm_num
    rw [Finset.sum_congr rfl hz]
    simp
  · exact le_of_eq (sum_weight_sq_eq_one h)

theorem linearKernel_nonneg (corpus : List String) (d e : String) :
    0 ≤ linearKernel corpus d e :=
  Finset.sum_nonneg
    (fun _ _ => mul_nonneg (tfidfWeight_nonneg _ _ _) (tfidfWeight_nonneg _ _ _))

theorem linearKernel_le_one (corpus : List String) (d e : String) :
    linearKernel corpus d e ≤ 1 := by
  have hcs := Finset.sum_mul_sq_le_sq_mul_sq (vocabulary corpus)
    (fun t => tfidfWeight corpus d t) (fun t => tfidfWeight corpus e t)
  have h1 := sum_weight_sq_le_one corpus d
  have h2 := sum_weight_sq_le_one corpus e
  have h0 := linearKernel_nonneg corpus d e
  have hA : (0 : ℝ) ≤ ∑ t ∈ vocabulary corpus, (tfidfWeight corpus d t) ^ 2 :=
    Finset.sum_nonneg (fun t _ => sq_nonneg _)
  have hB : (0 : ℝ) ≤ ∑ t ∈ vocabulary corpus, (tfidfWeight corpus e t) ^ 2 :=
    Finset.sum_nonneg (fun t _ => sq_nonneg _)
  unfold linearKernel at h0 ⊢
  nlinarith [hcs, h1, h2, h0, hA, hB]

theorem linearKernel_self {corpus : List String} {d : String}
    (h : rowNorm corpus d ≠ 0) : linearKernel corpus d d = 1 := by
  unfold linearKernel
  calc ∑ t ∈ vocabulary corpus, tfidfWeight corpus d t * tfidfWeight corpus d t
      = ∑ t ∈ vocabulary corpus, (tfidfWeight corpus d t) ^ 2 := by
        apply Finset.sum_congr rfl
        intro t _
        ring
    _ = 1 := sum_weight_sq_eq_one h

theorem tokenCount_eq_zero {d : String} (h : filteredTokens d = []) (t : String) :
    tokenCount d t = 0 := by
  unfold tokenCount
  rw [h]
  rfl

theorem linearKernel_zero_left {corpus : List String} {d : String} (e : String)
    (h : filteredTokens d = []) : linearKernel corpus d e = 0 := by
  unfold linearKernel
  apply Finset.sum_eq_zero
  intro t _
  unfold tfidfWeight tfidfRaw
  rw [tokenCount_eq_zero h t]
  simp

theorem mem_vocabulary {corpus : List String} {d t : String}
    (hd : d ∈ corpus) (ht : t ∈ filteredTokens d) : t ∈ vocabulary corpus := by
  unfold vocabulary
  rw [List.mem_toFinset]
  exact List.mem_flatten.2 ⟨filteredTokens d, List.mem_map_of_mem _ hd, ht⟩

theorem rowNorm_pos_of_token {corpus : List String} {d t : String}
    (ht : t ∈ vocabulary corpus) (hc : t ∈ filteredTokens d) :
    0 < rowNorm corpus d := by
  unfold rowNorm
  apply Real.sqrt_pos.2
  have hcount : tokenCount d t ≠ 0 := by
    intro h0
    exact (List.count_eq_zero.mp h0) hc
  have hcpos : (0 : ℝ) < (tokenCount d t : ℝ) := by
    exact_mod_cast Nat.pos_of_ne_zero hcount
  have hidf : (0 : ℝ) < idf corpus t := lt_of_lt_of_le one_pos (one_le_idf corpus t)
  have hterm : 0 < (tfidfRaw corpus d t) ^ 2 := by
    unfold tfidfRaw
    positivity
  calc (0 : ℝ) < (tfidfRaw corpus d t) ^ 2 := hterm
    _ ≤ ∑ u ∈ vocabulary corpus, (tfidfRaw corpus d u) ^ 2 :=
        @Finset.single_le_sum String ℝ _ (fun u => (tfidfRaw corpus d u) ^ 2)
          (vocabulary corpus) (fun u _ => sq_nonneg _) t ht

theorem corpusOf_dropLast (pool : List Mentor) (goal : String) :
    (corpusOf pool goal).dropLast = (eligibleMentors pool).map content := by
  unfold corpusOf
  rw [List.dropLast_concat]

/-! ### Pipeline glue -/

theorem simScores_eq_map (pool : List Mentor) (goal : String) :
    simScores pool goal = ((eligibleMentors pool).map content).map
      (fun d => linearKernel (corpusOf pool goal) goal d) := by
  unfold simScores
  rw [corpusOf_dropLast]

theorem simScores_length (pool : List Mentor) (goal : String) :
    (simScores pool goal).length = (eligibleMentors pool).length := by
  rw [simScores_eq_map]
  simp

theorem simScores_unit {pool : List Mentor} {goal : String} {s : ℝ}
    (hs : s ∈ simScores pool goal) : 0 ≤ s ∧ s ≤ 1 := by
  rw [simScores_eq_map] at hs
  rcases List.mem_map.1 hs with ⟨d, _, rfl⟩
  exact ⟨linearKernel_nonneg _ _ _, linearKernel_le_one _ _ _⟩

theorem rankedScores_perm (pool : List Mentor) (goal : String) :
    List.Perm (rankedScores pool goal) (scoresEnum pool goal) :=
  sortDesc_perm _

theorem rankedScores_sorted (pool : List Mentor) (goal : String) :
    (rankedScores pool goal).Pairwise (fun a b => b.2 ≤ a.2) :=
  sortDesc_sorted _

theorem rankedScores_stable (pool : List Mentor) (goal : String) :
    (rankedScores pool goal).Pairwise (fun a b => a.2 = b.2 → a.1 < b.1) :=
  sortDesc_stable (enum_pairwise_fst_lt _)

theorem mem_rankedScores {pool : List Mentor} {goal : String} {p : ℕ × ℝ}
    (hp : p ∈ rankedScores pool goal) :
    p.1 < (eligibleMentors pool).length ∧ p.2 ∈ simScores pool goal
      ∧ ∀ d, p.2 = (simScores pool goal).getD p.1 d := by
  have hmem : p ∈ scoresEnum pool goal := (rankedScores_perm pool goal).subset hp
  have h := mem_enum_spec hmem
  exact ⟨by rw [← simScores_length pool goal]; exact h.1, h.2.1, h.2.2⟩

theorem survivors_sublist (pool : List Mentor) (goal : String) :
    List.Sublist (survivors pool goal) (rankedScores pool goal) :=
  (List.filter_sublist _).trans (List.take_sublist _ _)

theorem mentor_data_eq_nil_iff (pool : List Mentor) :
    mentor_data pool = [] ↔ eligibleMentors pool = [] := by
  unfold mentor_data
  exact List.map_eq_nil_iff

theorem get_ai_eq_selected (pool : List Mentor) (goal : String) :
    get_ai_recommendations pool goal
      = (selectedPairs pool goal).map
          (fun p => (eligibleMentors pool).getD p.1 default) := by
  unfold get_ai_recommendations rankBody selectedPairs
  by_cases h1 : eligibleMentors pool = []
  · simp [h1]
  · have h2 : ¬mentor_data pool = [] := by
      rw [mentor_data_eq_nil_iff]
      exact h1
    by_cases h3 : vocabulary (corpusOf pool goal) = ∅
    · simp [h1, h2, h3]
    · simp [h1, h2, h3]

theorem survivors_length_le_three (pool : List Mentor) (goal : String) :
    (survivors pool goal).length ≤ 3 := by
  unfold survivors
  calc (((rankedScores pool goal).take 3).filter (fun p => (1 : ℝ)/10 < p.2)).length
      ≤ ((rankedScores pool goal).take 3).length := List.length_filter_le _ _
    _ ≤ 3 := by
        rw [List.length_take]
        exact min_le_left _ _

theorem rankedScores_length (pool : List Mentor) (goal : String) :
    (rankedScores pool goal).length = (eligibleMentors pool).length := by
  calc (rankedScores pool goal).length
      = (scoresEnum pool goal).length := (rankedScores_perm pool goal).length_eq
    _ = (simScores pool goal).length := List.enum_length
    _ = (eligibleMentors pool).length := simScores_length pool goal

theorem survivors_length_le (pool : List Mentor) (goal : String) :
    (survivors pool goal).length ≤ (eligibleMentors pool).length := by
  calc (survivors pool goal).length
      ≤ (rankedScores pool goal).length := (survivors_sublist pool goal).length_le
    _ = (eligibleMentors pool).length := rankedScores_length pool goal

/-! ### The selection policy on a sorted score list -/

theorem sorted_filter_take_comm {c : ℝ} :
    ∀ (n : ℕ) (s : List (ℕ × ℝ)), s.Pairwise (fun a b => b.2 ≤ a.2) →
      (s.take n).filter (fun p => c < p.2) = (s.filter (fun p => c < p.2)).take n := by
  intro n s
  induction s generalizing n with
  | nil => simp
  | cons x xs ih =>
    intro hs
    rcases List.pairwise_cons.1 hs with ⟨hx, hxs⟩
    cases n with
    | zero => simp
    | succ n =>
      by_cases hpx : c < x.2
      · simp [List.take_succ_cons, List.filter_cons, hpx, ih n hxs]
      · have hall : xs.filter (fun p => decide (c < p.2)) = [] := by
          rw [List.filter_eq_nil_iff]
          intro y hy
          simp only [decide_eq_true_eq]
          intro hcy
          exact hpx (lt_of_lt_of_le hcy (hx y hy))
        have hall2 : (xs.take n).filter (fun p => decide (c < p.2)) = [] := by
          rw [List.filter_eq_nil_iff]
          intro y hy
          rw [List.filter_eq_nil_iff] at hall
          exact hall y ((List.take_sublist n xs).subset hy)
        simp [List.take_succ_cons, List.filter_cons, hpx, hall, hall2]

theorem take3_filter_full {s : List (ℕ × ℝ)}
    (hs : s.Pairwise (fun a b => b.2 ≤ a.2))
    (h : ∃ p ∈ s.drop 3, (1 : ℝ)/10 < p.2) :
    ((s.take 3).filter (fun p => (1 : ℝ)/10 < p.2)).length = 3 := by
  rcases h with ⟨q, hq, hqgt⟩
  have hsplit : s.take 3 ++ s.drop 3 = s := List.take_append_drop 3 s
  have hpair : (s.take 3 ++ s.drop 3).Pairwise (fun a b => b.2 ≤ a.2) := by
    rw [hsplit]
    exact hs
  have hcross := (List.pairwise_append.1 hpair).2.2
  have hlen : 3 ≤ s.length := by
    by_contra hlt
    push_neg at hlt
    rw [List.drop_eq_nil_of_le (le_of_lt hlt)] at hq
    exact absurd hq (List.not_mem_nil q)
  have hfil : (s.take 3).filter (fun p => (1 : ℝ)/10 < p.2) = s.take 3 := by
    rw [List.filter_eq_self]
    intro p hp
    simp only [decide_eq_true_eq]
    exact lt_of_lt_of_le hqgt (hcross p hp q hq)
  rw [hfil, List.length_take]
  exact min_eq_left hlen

/-! ### Degenerate queries and case analysis of the selection -/

theorem survivors_eq_nil_of_zero {pool : List Mentor} {goal : String}
    (hz : ∀ s ∈ simScores pool goal, s = 0) : survivors pool goal = [] := by
  unfold survivors
  rw [List.filter_eq_nil_iff]
  intro p hp
  have hmem : p ∈ rankedScores pool goal := (List.take_sublist _ _).subset hp
  have h2 := (mem_rankedScores hmem).2.1
  have hzero := hz p.2 h2
  simp only [decide_eq_true_eq]
  rw [hzero]
  norm_num

theorem selectedPairs_cases (pool : List Mentor) (goal : String) :
    selectedPairs pool goal = [] ∨ selectedPairs pool goal = survivors pool goal := by
  unfold selectedPairs
  by_cases h1 : eligibleMentors pool = []
  · left
    rw [if_pos h1]
  · by_cases h2 : vocabulary (corpusOf pool goal) = ∅
    · left
      rw [if_neg h1, if_pos h2]
    · right
      rw [if_neg h1, if_neg h2]

theorem selectedPairs_sublist (pool : List Mentor) (goal : String) :
    List.Sublist (selectedPairs pool goal) (rankedScores pool goal) := by
  rcases selectedPairs_cases pool goal with h | h
  · rw [h]
    exact List.nil_sublist _
  · rw [h]
    exact survivors_sublist pool goal

theorem selectedPairs_length_le_three (pool : List Mentor) (goal : String) :
    (selectedPairs pool goal).length ≤ 3 := by
  rcases selectedPairs_cases pool goal with h | h
  · rw [h]
    exact Nat.zero_le 3
  · rw [h]
    exact survivors_length_le_three pool goal

theorem selectedPairs_length_le (pool : List Mentor) (goal : String) :
    (selectedPairs pool goal).length ≤ (eligibleMentors pool).length := by
  calc (selectedPairs pool goal).length
      ≤ (rankedScores pool goal).length := (selectedPairs_sublist pool goal).length_le
    _ = (eligibleMentors pool).length := rankedScores_length pool goal

/-! ### Exact-copy queries -/

theorem goal_mem_corpusOf (pool : List Mentor) (goal : String) :
    goal ∈ corpusOf pool goal :=
  List.mem_append_right _ (List.mem_singleton_self goal)

theorem vocab_ne_empty_of_query {pool : List Mentor} {goal : String}
    (hq : filteredTokens goal ≠ []) :
    vocabulary (corpusOf pool goal) ≠ ∅ :=
  Finset.ne_empty_of_mem
    (mem_vocabulary (goal_mem_corpusOf pool goal) (List.head_mem hq))

theorem rowNorm_query_pos {pool : List Mentor} {goal : String}
    (hq : filteredTokens goal ≠ []) :
    0 < rowNorm (corpusOf pool goal) goal :=
  rowNorm_pos_of_token
    (mem_vocabulary (goal_mem_corpusOf pool goal) (List.head_mem hq))
    (List.head_mem hq)

theorem linearKernel_query_self {pool : List Mentor} {goal : String}
    (hq : filteredTokens goal ≠ []) :
    linearKernel (corpusOf pool goal) goal goal = 1 :=
  linearKernel_self (rowNorm_query_pos hq).ne'

theorem simScores_getD (pool : List Mentor) (goal : String) {i : ℕ}
    (hi : i < (eligibleMentors pool).length) :
    (simScores pool goal).getD i 0
      = linearKernel (corpusOf pool goal) goal
          (content ((eligibleMentors pool).getD i default)) := by
  rw [simScores_eq_map, List.getD_eq_getElem?_getD, List.getElem?_map,
    List.getElem?_map, List.getElem?_eq_getElem hi, List.getD_eq_getElem?_getD,
    List.getElem?_eq_getElem hi]
  rfl

theorem exact_copy_score {pool : List Mentor} {goal : String} {i : ℕ}
    (hi : i < (eligibleMentors pool).length)
    (hc : content ((eligibleMentors pool).getD i default) = goal)
    (hq : filteredTokens goal ≠ []) :
    (simScores pool goal).getD i 0 = 1 := by
  rw [simScores_getD pool goal hi, hc]
  exact linearKernel_query_self hq

theorem enum_mem_of_lt {α : Type} {l : List α} {i : ℕ} (h : i < l.length) (d : α) :
    (i, l.getD i d) ∈ l.enum := by
  have hval : l.getD i d = l[i] := by
    rw [List.getD_eq_getElem?_getD, List.getElem?_eq_getElem h]
    rfl
  rw [List.mem_enum_iff_getElem?]
  show l[i]? = some (l.getD i d)
  rw [hval, List.getElem?_eq_getElem h]

theorem rankedScores_head_exact {pool : List Mentor} {goal : String} {i : ℕ}
    (hi : i < (eligibleMentors pool).length)
    (h1 : (simScores pool goal).getD i 0 = 1) :
    ∃ hd tl, rankedScores pool goal = hd :: tl ∧ hd.2 = 1
      ∧ ((∀ j, j < i → (simScores pool goal).getD j 0 ≠ 1) → hd = (i, 1)) := by
  have hilen : i < (simScores pool goal).length := by
    rw [simScores_length]
    exact hi
  have hmem0 : (i, (1 : ℝ)) ∈ scoresEnum pool goal := by
    have h := enum_mem_of_lt hilen (0 : ℝ)
    rw [h1] at h
    exact h
  have hmem : (i, (1 : ℝ)) ∈ rankedScores pool goal :=
    (rankedScores_perm pool goal).symm.subset hmem0
  have hne : rankedScores pool goal ≠ [] := List.ne_nil_of_mem hmem
  rcases List.exists_cons_of_ne_nil hne with ⟨hd, tl, heq⟩
  have hsorted := rankedScores_sorted pool goal
  rw [heq] at hsorted hmem
  rcases List.pairwise_cons.1 hsorted with ⟨hhd, _⟩
  have hge : 1 ≤ hd.2 := by
    rcases List.mem_cons.1 hmem with heq1 | hmem1
    · rw [← heq1]
    · exact hhd _ hmem1
  have hhdmem : hd ∈ rankedScores pool goal := by
    rw [heq]
    exact List.mem_cons_self hd tl
  have hle : hd.2 ≤ 1 := (simScores_unit (mem_rankedScores hhdmem).2.1).2
  have hval : hd.2 = 1 := le_antisymm hle hge
  refine ⟨hd, tl, heq, hval, ?_⟩
  intro hleast
  have hspec := mem_rankedScores hhdmem
  have hgetD : (simScores pool goal).getD hd.1 0 = 1 := by
    rw [← hspec.2.2 0]
    exact hval
  have hnotlt : ¬hd.1 < i := fun hlt => hleast hd.1 hlt hgetD
  by_cases heqi : hd.1 = i
  · rw [Prod.ext_iff]
    exact ⟨heqi, hval⟩
  · have hgt : i < hd.1 := lt_of_le_of_ne (le_of_not_lt hnotlt) (Ne.symm heqi)
    have hmem1 : (i, (1 : ℝ)) ∈ tl := by
      rcases List.mem_cons.1 hmem with heq1 | h
      · exact absurd (congrArg Prod.fst heq1) (by simpa using (ne_of_gt hgt).symm)
      · exact h
    have hstab := rankedScores_stable pool goal
    rw [heq] at hstab
    rcases List.pairwise_cons.1 hstab with ⟨hshd, _⟩
    have hlt := hshd _ hmem1 (by rw [hval])
    exact absurd hlt (not_lt_of_gt hgt)

theorem eligible_singleton {m : Mentor} (hrole : m.role = "mentor")
    (hver : m.is_verified = true) : eligibleMentors [m] = [m] := by
  unfold eligibleMentors
  simp [hrole, hver]

theorem get_ai_singleton_exact {m : Mentor} {goal : String}
    (hrole : m.role = "mentor") (hver : m.is_verified = true)
    (hc : content m = goal) (hq : filteredTokens goal ≠ []) :
    get_ai_recommendations [m] goal = [m] := by
  have helig := eligible_singleton hrole hver
  have hscore : simScores [m] goal = [1] := by
    rw [simScores_eq_map, helig]
    simp only [List.map_cons, List.map_nil]
    rw [hc, linearKernel_query_self hq]
  have henum : scoresEnum [m] goal = [(0, (1 : ℝ))] := by
    unfold scoresEnum
    rw [hscore]
    rfl
  have hranked : rankedScores [m] goal = [(0, (1 : ℝ))] := by
    unfold rankedScores
    rw [henum]
    rfl
  have hsurv : survivors [m] goal = [(0, (1 : ℝ))] := by
    unfold survivors
    rw [hranked]
    simp only [List.take_succ_cons, List.take_nil, List.filter_cons, List.filter_nil]
    norm_num
  have hvocab : ¬vocabulary (corpusOf [m] goal) = ∅ := vocab_ne_empty_of_query hq
  have hne : ¬eligibleMentors [m] = [] := by
    rw [helig]
    exact List.cons_ne_nil m []
  rw [get_ai_eq_selected]
  unfold selectedPairs
  rw [if_neg hne, if_neg hvocab, hsurv]
  rw [helig]
  rfl

theorem getD_eq_getElem_of_lt {α : Type} {l : List α} {n : ℕ}
    (h : n < l.length) (d : α) : l.getD n d = l[n] := by
  rw [List.getD_eq_getElem?_getD, List.getElem?_eq_getElem h]
  rfl

theorem mem_eligible_props {pool : List Mentor} {m : Mentor}
    (hm : m ∈ eligibleMentors pool) :
    m.role = "mentor" ∧ m.is_verified = true := by
  unfold eligibleMentors at hm
  have h := (List.mem_filter.1 hm).2
  simp only [Bool.and_eq_true, beq_iff_eq] at h
  exact h

/-! ### Claims -/

/-- Claim C1 (corrected).  The ranker does keep the first 3 entries of the
score-sorted list and only then filters to scores strictly above 0.1, in
that order; but because the list is sorted in non-increasing score order,
this coincides extensionally with threshold-then-top-3, and whenever an
entry with score above 0.1 exists beyond rank 3 the selection has exactly 3
entries — so, contrary to the claim, the result is never shorter than 3
while a qualifying mentor sits beyond rank 3. -/
theorem C1_top3_then_threshold (pool : List Mentor) (goal : String)
    (l : List (ℕ × ℝ))
    (hq : ∃ p ∈ (sortDesc l).drop 3, (1 : ℝ)/10 < p.2) :
    survivors pool goal
        = ((rankedScores pool goal).take 3).filter (fun p => (1 : ℝ)/10 < p.2)
  ∧ ((rankedScores pool goal).take 3).filter (fun p => (1 : ℝ)/10 < p.2)
        = ((rankedScores pool goal).filter (fun p => (1 : ℝ)/10 < p.2)).take 3
  ∧ (((sortDesc l).take 3).filter (fun p => (1 : ℝ)/10 < p.2)).length = 3 :=
  ⟨rfl, sorted_filter_take_comm 3 _ (rankedScores_sorted pool goal),
    take3_filter_full (sortDesc_sorted l) hq⟩

/-- Witness for C1 at a concrete score list with four entries above the
threshold. -/
theorem C1_top3_then_threshold_witness :
    (∃ p ∈ (sortDesc [(0, (1:ℝ)/2), (1, 2/5), (2, 3/10), (3, 1/5)]).drop 3,
        (1 : ℝ)/10 < p.2)
  ∧ (((sortDesc [(0, (1:ℝ)/2), (1, 2/5), (2, 3/10), (3, 1/5)]).take 3).filter
        (fun p => (1 : ℝ)/10 < p.2)).length = 3 := by
  have hsort : sortDesc [(0, (1:ℝ)/2), (1, 2/5), (2, 3/10), (3, 1/5)]
      = [(0, (1:ℝ)/2), (1, 2/5), (2, 3/10), (3, 1/5)] := by
    norm_num [sortDesc, insertDesc]
  have hq : ∃ p ∈ (sortDesc [(0, (1:ℝ)/2), (1, 2/5), (2, 3/10), (3, 1/5)]).drop 3,
      (1 : ℝ)/10 < p.2 := by
    rw [hsort]
    refine ⟨(3, (1:ℝ)/5), ?_, ?_⟩
    · simp
    · norm_num
  exact ⟨hq, (C1_top3_then_threshold [] "" _ hq).2.2⟩

/-- Counterexample to C1 as stated: it is impossible for the result to have
fewer than 3 entries while a score strictly above 0.1 exists beyond rank 3
of the sorted list. -/
theorem C1_counterexample :
    ¬∃ (pool : List Mentor) (goal : String) (p : ℕ × ℝ),
        p ∈ (rankedScores pool goal).drop 3 ∧ (1 : ℝ)/10 < p.2
          ∧ (survivors pool goal).length < 3 := by
  rintro ⟨pool, goal, p, hp, hgt, hlt⟩
  have h3 := take3_filter_full (rankedScores_sorted pool goal) ⟨p, hp, hgt⟩
  unfold survivors at hlt
  rw [h3] at hlt
  exact lt_irrefl 3 hlt

/-- Claim C2 (confirmed).  The score-sorted list is ordered non-increasingly
by similarity score, and entries with equal scores keep their original
mentor-pool order (stable sort, no secondary key); both properties carry
over to the selected prefix that the function returns. -/
theorem C2_sorted_stable (pool : List Mentor) (goal : String) :
    (rankedScores pool goal).Pairwise (fun a b => b.2 ≤ a.2)
  ∧ (rankedScores pool goal).Pairwise (fun a b => a.2 = b.2 → a.1 < b.1)
  ∧ (selectedPairs pool goal).Pairwise (fun a b => b.2 ≤ a.2)
  ∧ (selectedPairs pool goal).Pairwise (fun a b => a.2 = b.2 → a.1 < b.1) :=
  ⟨rankedScores_sorted pool goal, rankedScores_stable pool goal,
    List.Pairwise.sublist (selectedPairs_sublist pool goal)
      (rankedScores_sorted pool goal),
    List.Pairwise.sublist (selectedPairs_sublist pool goal)
      (rankedScores_stable pool goal)⟩

/-- Witness for C2: the ordering and stability facts at a concrete pool and
query. -/
theorem C2_sorted_stable_witness :
    (rankedScores [mentorA] goalA).Pairwise (fun a b => b.2 ≤ a.2)
  ∧ (rankedScores [mentorA] goalA).Pairwise (fun a b => a.2 = b.2 → a.1 < b.1)
  ∧ (selectedPairs [mentorA] goalA).Pairwise (fun a b => b.2 ≤ a.2)
  ∧ (selectedPairs [mentorA] goalA).Pairwise (fun a b => a.2 = b.2 → a.1 < b.1) :=
  C2_sorted_stable [mentorA] goalA

/-- Claim C3 (confirmed).  The matching call never propagates a failure of
the fallible body to its caller: when the body fails the call returns the
empty list, and when the body succeeds the call returns exactly the body's
list — the caller always receives a (possibly empty) list. -/
theorem C3_no_exception (pool : List Mentor) (goal : String) :
    (∀ e, rankBody pool goal = Except.error e
        → get_ai_recommendations pool goal = [])
  ∧ (∀ r, rankBody pool goal = Except.ok r
        → get_ai_recommendations pool goal = r) := by
  constructor
  · intro e he
    unfold get_ai_recommendations
    rw [he]
  · intro r hr
    unfold get_ai_recommendations
    rw [hr]

/-- Witness for C3: a pool whose single document is all stop words together
with an empty query makes the vectorizer fail (empty vocabulary), and the
call converts that failure into the empty list. -/
theorem C3_no_exception_witness :
    rankBody [mentorNull] ""
      = Except.error ("empty vocabulary; perhaps the documents only contain stop words")
  ∧ get_ai_recommendations [mentorNull] "" = [] := by
  have herr : rankBody [mentorNull] ""
      = Except.error ("empty vocabulary; perhaps the documents only contain stop words") := by
    unfold rankBody
    rw [if_neg (by decide), if_neg (by decide), if_pos (by decide)]
  exact ⟨herr, (C3_no_exception [mentorNull] "").1 _ herr⟩

/-- Claim C4 (corrected).  The candidate document joins the mentor's domain,
company, services, biography and skills fields with single spaces, the
builder never fails and never omits a mentor (one entry per eligible mentor,
in pool order) — but a missing/null field contributes the five-character
string "None" (Python's rendering of `None` in an f-string), not the empty
string. -/
theorem C4_document_builder (pool : List Mentor) :
    mentor_data pool = (eligibleMentors pool).map (fun m => (m.id, content m, m))
  ∧ (mentor_data pool).length = (eligibleMentors pool).length
  ∧ (∀ m : Mentor, content m
      = pyStr m.domain ++ " " ++ pyStr m.company ++ " " ++ pyStr m.services
        ++ " " ++ pyStr m.bio ++ " " ++ pyStr m.skills)
  ∧ (∀ s : String, pyStr (some s) = s) ∧ pyStr none = "None" := by
  refine ⟨rfl, ?_, fun m => rfl, fun s => rfl, rfl⟩
  unfold mentor_data
  rw [List.length_map]

/-- Counterexample to C4 as stated: for a mentor whose `domain` is null the
built document starts with "None ", while the document the claim describes
(null ↦ empty string) starts with a bare space; the two disagree. -/
theorem C4_counterexample :
    content mentorHalfNull = "None Google resume review I mentor devs python"
  ∧ specDocument mentorHalfNull = " Google resume review I mentor devs python"
  ∧ content mentorHalfNull ≠ specDocument mentorHalfNull := by
  refine ⟨by decide, by decide, by decide⟩

/-- Claim C5 (corrected).  The function returns the mentor records (full
`User` objects) of the surviving entries — not bare identifiers — preserving
rank order; the identifier sequence of the claim is recovered by projecting
the `id` field of the returned records. -/
theorem C5_returns_records (pool : List Mentor) (goal : String) :
    get_ai_recommendations pool goal
        = (selectedPairs pool goal).map
            (fun p => (eligibleMentors pool).getD p.1 default)
  ∧ (get_ai_recommendations pool goal).map Mentor.id
        = (selectedPairs pool goal).map
            (fun p => ((eligibleMentors pool).getD p.1 default).id)
  ∧ List.Sublist (selectedPairs pool goal) (rankedScores pool goal) := by
  refine ⟨get_ai_eq_selected pool goal, ?_, selectedPairs_sublist pool goal⟩
  rw [get_ai_eq_selected, List.map_map]
  rfl

/-- Witness for C5: the record/identifier decomposition at a concrete pool
and query. -/
theorem C5_returns_records_witness :
    get_ai_recommendations [mentorA] goalA
        = (selectedPairs [mentorA] goalA).map
            (fun p => (eligibleMentors [mentorA]).getD p.1 default)
  ∧ (get_ai_recommendations [mentorA] goalA).map Mentor.id
        = (selectedPairs [mentorA] goalA).map
            (fun p => ((eligibleMentors [mentorA]).getD p.1 default).id)
  ∧ List.Sublist (selectedPairs [mentorA] goalA) (rankedScores [mentorA] goalA) :=
  C5_returns_records [mentorA] goalA

/-- Counterexample to C5 as stated: two pools whose mentors carry the same
identifier and the same document fields but different prices produce
different return values, so the function returns mentor records, not
identifier sequences (the projected identifier sequences agree). -/
theorem C5_counterexample :
    get_ai_recommendations [mentorA] goalA ≠ get_ai_recommendations [mentorB] goalA
  ∧ (get_ai_recommendations [mentorA] goalA).map Mentor.id
      = (get_ai_recommendations [mentorB] goalA).map Mentor.id := by
  have hA : get_ai_recommendations [mentorA] goalA = [mentorA] :=
    get_ai_singleton_exact rfl rfl (by decide) (by decide)
  have hB : get_ai_recommendations [mentorB] goalA = [mentorB] :=
    get_ai_singleton_exact rfl rfl (by decide) (by decide)
  rw [hA, hB]
  exact ⟨by decide, by decide⟩

/-- Claim C6 (confirmed).  With no eligible mentors the call returns the
empty list immediately, without reaching the vectorizer; this is the normal
(non-error) path. -/
theorem C6_empty_pool (pool : List Mentor) (goal : String)
    (h : eligibleMentors pool = []) :
    get_ai_recommendations pool goal = [] ∧ vectorizerInvoked pool = false := by
  constructor
  · rw [get_ai_eq_selected]
    unfold selectedPairs
    rw [if_pos h]
    rfl
  · unfold vectorizerInvoked
    rw [h]
    rfl

/-- Witness for C6: a pool holding only an unverified non-mentor user. -/
theorem C6_empty_pool_witness :
    eligibleMentors [learnerC] = []
  ∧ get_ai_recommendations [learnerC] "python mentor" = []
  ∧ vectorizerInvoked [learnerC] = false := by
  have h : eligibleMentors [learnerC] = [] := by decide
  have hc := C6_empty_pool [learnerC] "python mentor" h
  exact ⟨h, hc.1, hc.2⟩

/-- Claim C7 (confirmed).  For a non-empty eligible pool, a query that is
empty, whitespace-only or made only of stop words (its analyzed token list
is empty) yields an all-zero score vector, so the strict 0.1 threshold
leaves nothing and the call returns the empty list — with no special-case
branch beyond the error handler. -/
theorem C7_degenerate_query (pool : List Mentor) (goal : String)
    (_hne : eligibleMentors pool ≠ []) (hq : filteredTokens goal = []) :
    get_ai_recommendations pool goal = []
  ∧ ∀ s ∈ simScores pool goal, s = 0 := by
  have hz : ∀ s ∈ simScores pool goal, s = 0 := by
    intro s hs
    rw [simScores_eq_map] at hs
    rcases List.mem_map.1 hs with ⟨d, _, rfl⟩
    exact linearKernel_zero_left d hq
  refine ⟨?_, hz⟩
  rw [get_ai_eq_selected]
  rcases selectedPairs_cases pool goal with h | h
  · rw [h]
    rfl
  · rw [h, survivors_eq_nil_of_zero hz]
    rfl

/-- Witness for C7: a verified mentor pool with the empty query and with a
stop-word-only query. -/
theorem C7_degenerate_query_witness :
    (eligibleMentors [mentorA] ≠ [] ∧ filteredTokens ("the and of") = []
      ∧ filteredTokens ("") = [])
  ∧ get_ai_recommendations [mentorA] "the and of" = []
  ∧ get_ai_recommendations [mentorA] "" = [] := by
  refine ⟨⟨by decide, by decide, by decide⟩, ?_, ?_⟩
  · exact (C7_degenerate_query [mentorA] "the and of" (by decide) (by decide)).1
  · exact (C7_degenerate_query [mentorA] "" (by decide) (by decide)).1

/-- Claim C8 (confirmed).  Every similarity score used for filtering lies in
the closed interval `[0, 1]`, and the returned list has at most 3 entries. -/
theorem C8_scores_in_unit_interval (pool : List Mentor) (goal : String) :
    (∀ s ∈ simScores pool goal, 0 ≤ s ∧ s ≤ 1)
  ∧ (get_ai_recommendations pool goal).length ≤ 3 := by
  refine ⟨fun s hs => simScores_unit hs, ?_⟩
  rw [get_ai_eq_selected, List.length_map]
  exact selectedPairs_length_le_three pool goal

/-- Witness for C8: the bounds at a concrete pool and query. -/
theorem C8_scores_in_unit_interval_witness :
    (∀ s ∈ simScores [mentorA] goalA, 0 ≤ s ∧ s ≤ 1)
  ∧ (get_ai_recommendations [mentorA] goalA).length ≤ 3 :=
  C8_scores_in_unit_interval [mentorA] goalA

/-- Claim C9 (confirmed).  A mentor whose candidate document is an exact
copy of the query (which contains at least one non-stop-word term) scores
exactly 1 against that query, the top-ranked entry's score is 1, and when
that mentor is the earliest such scorer it occupies the first rank (ties
resolved by original pool order). -/
theorem C9_exact_copy_first (pool : List Mentor) (goal : String) (i : ℕ)
    (hi : i < (eligibleMentors pool).length)
    (hc : content ((eligibleMentors pool).getD i default) = goal)
    (hq : filteredTokens goal ≠ []) :
    (simScores pool goal).getD i 0 = 1
  ∧ (rankedScores pool goal).head?.map Prod.snd = some 1
  ∧ ((∀ j, j < i → (simScores pool goal).getD j 0 ≠ 1)
      → (rankedScores pool goal).head? = some (i, 1)) := by
  have h1 := exact_copy_score hi hc hq
  rcases rankedScores_head_exact hi h1 with ⟨hd, tl, heq, hval, hfirst⟩
  refine ⟨h1, ?_, ?_⟩
  · rw [heq]
    simp [hval]
  · intro hleast
    rw [heq, hfirst hleast]
    rfl

/-- Witness for C9: a single-mentor pool whose document equals the query. -/
theorem C9_exact_copy_first_witness :
    (0 < (eligibleMentors [mentorA]).length
      ∧ content ((eligibleMentors [mentorA]).getD 0 default) = goalA
      ∧ filteredTokens goalA ≠ [])
  ∧ (simScores [mentorA] goalA).getD 0 0 = 1
  ∧ (rankedScores [mentorA] goalA).head? = some (0, 1) := by
  have hi : 0 < (eligibleMentors [mentorA]).length := by decide
  have hc : content ((eligibleMentors [mentorA]).getD 0 default) = goalA := by decide
  have hq : filteredTokens goalA ≠ [] := by decide
  have h := C9_exact_copy_first [mentorA] goalA 0 hi hc hq
  exact ⟨⟨hi, hc, hq⟩, h.1, h.2.2 (fun j hj => absurd hj (Nat.not_lt_zero j))⟩

/-- Claim C10 (confirmed).  Every returned entry is drawn from a distinct
position of the eligible pool (role mentor, verified), so no entry repeats
and no non-eligible user appears, and the output length is at most the
minimum of 3 and the (eligible) pool size. -/
theorem C10_distinct_from_pool (pool : List Mentor) (goal : String) :
    ∃ idxs : List ℕ, idxs.Nodup
      ∧ (∀ i ∈ idxs, i < (eligibleMentors pool).length)
      ∧ get_ai_recommendations pool goal
          = idxs.map (fun i => (eligibleMentors pool).getD i default)
      ∧ (∀ m ∈ get_ai_recommendations pool goal,
            m.role = "mentor" ∧ m.is_verified = true)
      ∧ (get_ai_recommendations pool goal).length
          ≤ min 3 (eligibleMentors pool).length
      ∧ (get_ai_recommendations pool goal).length ≤ min 3 pool.length := by
  refine ⟨(selectedPairs pool goal).map Prod.fst, ?_, ?_, ?_, ?_, ?_, ?_⟩
  · have hperm : List.Perm ((rankedScores pool goal).map Prod.fst)
        ((scoresEnum pool goal).map Prod.fst) :=
      (rankedScores_perm pool goal).map _
    have henum : (scoresEnum pool goal).map Prod.fst
        = List.range (simScores pool goal).length := by
      unfold scoresEnum
      exact List.enum_map_fst _
    have hnd : ((rankedScores pool goal).map Prod.fst).Nodup := by
      rw [hperm.nodup_iff, henum]
      exact List.nodup_range _
    exact List.Nodup.sublist
      (List.Sublist.map Prod.fst (selectedPairs_sublist pool goal)) hnd
  · intro i hi
    rcases List.mem_map.1 hi with ⟨p, hp, rfl⟩
    exact (mem_rankedScores ((selectedPairs_sublist pool goal).subset hp)).1
  · rw [get_ai_eq_selected, List.map_map]
    rfl
  · intro m hm
    rw [get_ai_eq_selected] at hm
    rcases List.mem_map.1 hm with ⟨p, hp, rfl⟩
    have hlt := (mem_rankedScores ((selectedPairs_sublist pool goal).subset hp)).1
    have hmem : (eligibleMentors pool).getD p.1 default ∈ eligibleMentors pool := by
      rw [getD_eq_getElem_of_lt hlt]
      exact List.getElem_mem hlt
    exact mem_eligible_props hmem
  · rw [get_ai_eq_selected, List.length_map]
    exact le_min (selectedPairs_length_le_three pool goal)
      (selectedPairs_length_le pool goal)
  · rw [get_ai_eq_selected, List.length_map]
    refine le_min (selectedPairs_length_le_three pool goal) ?_
    exact le_trans (selectedPairs_length_le pool goal)
      (List.length_filter_le _ pool)

/-- Witness for C10: the invariant at a concrete pool and query. -/
theorem C10_distinct_from_pool_witness :
    ∃ idxs : List ℕ, idxs.Nodup
      ∧ (∀ i ∈ idxs, i < (eligibleMentors [mentorA]).length)
      ∧ get_ai_recommendations [mentorA] goalA
          = idxs.map (fun i => (eligibleMentors [mentorA]).getD i default)
      ∧ (∀ m ∈ get_ai_recommendations [mentorA] goalA,
            m.role = "mentor" ∧ m.is_verified = true)
      ∧ (get_ai_recommendations [mentorA] goalA).length
          ≤ min 3 (eligibleMentors [mentorA]).length
      ∧ (get_ai_recommendations [mentorA] goalA).length
          ≤ min 3 ([mentorA] : List Mentor).length :=
  C10_distinct_from_pool [mentorA] goalA
